import Mathlib

/-!
Verification of the speaker-isolator pipeline (src/main.py, src/app.py).

The audio timeline is modelled at millisecond granularity: an
AudioSegment becomes a `List Int` with one sample value per millisecond,
so pydub slicing `audio[start:end]` becomes drop/take and
`AudioSegment.silent(duration=d)` becomes `d` zero samples.  Utterances
carry the transcript fields `speaker`, `start`, `end` (named `stop` here
because `end` is a Lean keyword).
-/

set_option maxRecDepth 100000

/-- One transcript utterance (speaker label, start ms, end ms). -/
structure Utterance where
  speaker : String
  start : Nat
  stop : Nat

/-- src/main.py line 25: `PAUSE_DURATION_MS = 500`. -/
def PAUSE_DURATION_MS : Nat := 500

/-- `AudioSegment.silent(duration=PAUSE_DURATION_MS)`: 500 ms of digital silence. -/
def pause : List Int := List.replicate PAUSE_DURATION_MS 0

/-- Python slice `a[s:e]` on a millisecond timeline (clamps at the end of
the buffer, empty when `e <= s`). -/
def pyslice (a : List Int) (s e : Nat) : List Int := (a.drop s).take (e - s)

/-- src/main.py line 120: `segment = audio[start:end]`. -/
def sliceU (audio_bytes : List Int) (u : Utterance) : List Int :=
  pyslice audio_bytes u.start u.stop

/-- The `speaker_segments` dict: insertion-ordered association list from
speaker label to accumulated combined track. -/
abbrev SegDict := List (String × List Int)

/-- The `speaker_individual_segments` dict: insertion-ordered association
list from speaker label to the list of that speaker's raw slices. -/
abbrev IndDict := List (String × List (List Int))

/-- src/main.py lines 122-126: if the speaker is absent the dict gains the
entry `(speaker, segment)` at the end (Python dict insertion order); if
present, `speaker_segments[speaker] += pause + segment`. -/
def updSegs : SegDict → String → List Int → SegDict
  | [], spk, seg => [(spk, seg)]
  | (k, v) :: rest, spk, seg =>
    if k == spk then (k, v ++ (pause ++ seg)) :: rest
    else (k, v) :: updSegs rest spk seg

/-- src/main.py lines 128-131: `speaker_individual_segments[speaker]`
starts as `[segment]` and later gains `segment` by `append`. -/
def updInd : IndDict → String → List Int → IndDict
  | [], spk, seg => [(spk, [seg])]
  | (k, v) :: rest, spk, seg =>
    if k == spk then (k, v ++ [seg]) :: rest
    else (k, v) :: updInd rest spk seg

/-- One iteration of the loop at src/main.py lines 115-131: slice the
utterance and update both dicts. -/
def segStep (audio_bytes : List Int) (st : SegDict × IndDict) (u : Utterance) :
    SegDict × IndDict :=
  let seg := sliceU audio_bytes u
  (updSegs st.1 u.speaker seg, updInd st.2 u.speaker seg)

/-- The `speaker_segments` dict as left by the utterance loop
(src/main.py lines 112-131).  The loop runs in transcript order: no sort
is performed. -/
def speaker_segments (utts : List Utterance) (audio_bytes : List Int) : SegDict :=
  (utts.foldl (segStep audio_bytes) ([], [])).1

/-- The `speaker_individual_segments` dict as left by the utterance loop. -/
def speaker_individual_segments (utts : List Utterance) (audio_bytes : List Int) :
    IndDict :=
  (utts.foldl (segStep audio_bytes) ([], [])).2

/-- src/main.py lines 102-141, `create_speaker_segments`: the returned
`output_files` list — one `speaker_{speaker}.mp3` per speaker (combined
track), then, per speaker, `speaker_{speaker}_segment_{i+1}.mp3` for each
individual slice, `i` the 0-based enumeration index. -/
def create_speaker_segments (utts : List Utterance) (audio_bytes : List Int) :
    List (String × List Int) :=
  let st := utts.foldl (segStep audio_bytes) ([], [])
  st.1.map (fun p => ("speaker_" ++ p.1 ++ ".mp3", p.2))
  ++ (st.2.map (fun p => p.2.enum.map (fun q =>
        ("speaker_" ++ p.1 ++ "_segment_" ++ toString (q.1 + 1) ++ ".mp3", q.2)))).flatten

/-! Reference combinators used to state properties of the loop. -/

/-- The utterances of one speaker, in transcript order. -/
def uttsOf (s : String) (l : List Utterance) : List Utterance :=
  l.filter (fun u => u.speaker == s)

/-- The speakers in first-occurrence order (Python dict key order). -/
def speakersOf (l : List Utterance) : List String :=
  l.foldl (fun acc u => if u.speaker ∈ acc then acc else acc ++ [u.speaker]) []

/-- Concatenation of buffers with a 500 ms pause between consecutive ones. -/
def joinPause : List (List Int) → List Int
  | [] => []
  | [b] => b
  | b :: b2 :: rest => b ++ (pause ++ joinPause (b2 :: rest))

/-! Transcription poll loop (src/main.py lines 85-96). -/

/-- One JSON body returned by a status query of the transcription job. -/
structure TranscriptData where
  status : String
  utterances : List Utterance
  error_detail : String

/-- src/main.py line 96: `time.sleep(5)` between consecutive status queries. -/
def POLL_INTERVAL_SECONDS : Nat := 5

/-- src/main.py lines 85-96, the `while True` poll loop of `get_transcript`,
run against the (finite, observed) sequence of successive status responses.
Returns the total seconds slept and the outcome: `some (.ok r)` when a
response has status `"completed"`, `some (.error msg)` when one has status
`"error"` (the raised exception message), and `none` when every observed
response left the loop still polling. -/
def get_transcript_poll : List TranscriptData → Nat × Option (Except String TranscriptData)
  | [] => (0, none)
  | r :: rest =>
    if r.status = "completed" then (0, some (.ok r))
    else if r.status = "error" then
      (0, some (.error ("Transcription failed: " ++ r.error_detail)))
    else
      let p := get_transcript_poll rest
      (p.1 + POLL_INTERVAL_SECONDS, p.2)

/-! The `/process_video` endpoint (src/main.py lines 146-191). -/

/-- A Python exception: `http code desc` is the `HTTPException` raised by
`flask.abort(code, description=desc)` (a subclass of `Exception`), `exc`
any other exception escaping a collaborator call. -/
inductive PyExc where
  | http : Nat → String → PyExc
  | exc : String → PyExc

/-- Checks `re.match(r^(www\.)?youtube\.com, netloc)` character by
character: the anchored optional-`www.` pattern succeeds exactly when the
netloc starts with `youtube.com` or with `www.youtube.com`. -/
def listIsPre : List Char → List Char → Bool
  | [], _ => true
  | _ :: _, [] => false
  | c :: cs, d :: ds => c == d && listIsPre cs ds

/-- src/main.py line 159: the YouTube-URL validation applied to
`urlparse(youtube_url).netloc`. -/
def youtubeNetloc (netloc : String) : Bool :=
  listIsPre "youtube.com".data netloc.data || listIsPre "www.youtube.com".data netloc.data

/-- The collaborators the endpoint calls, abstracted: `netlocOf` is
`urlparse(url).netloc`, `apiKey` the `ASSEMBLY_AI_API_KEY` environment
variable, `download`/`upload`/`transcribe` are `download_youtube_video`,
`upload_audio` and `get_transcript` (the latter reduced to the utterance
list of the completed transcript), each either returning a value or
raising an exception. -/
structure Env where
  netlocOf : String → String
  apiKey : Option String
  download : String → Except String (List Int)
  upload : List Int → Except String String
  transcribe : String → Except String (List Utterance)

/-- src/main.py lines 153-187, the body of the `try:` block of
`process_video_endpoint`: each `abort(400, ...)` raises `PyExc.http 400`,
each failing collaborator raises `PyExc.exc`, and on success the zip
contents (the `create_speaker_segments` output) are produced.  The
request body is `none` when `request.json` is falsy, otherwise the JSON
object as a key-value list. -/
def process_video_body (env : Env) (reqJson : Option (List (String × String))) :
    Except PyExc (List (String × List Int)) :=
  match reqJson with
  | none => .error (.http 400 "Invalid request. Please provide a youtube_url field.")
  | some j =>
    match j.lookup "youtube_url" with
    | none => .error (.http 400 "Invalid request. Please provide a youtube_url field.")
    | some url =>
      if youtubeNetloc (env.netlocOf url) then
        match env.apiKey with
        | none => .error (.http 400 "Missing API key. Please set the ASSEMBLY_AI_API_KEY environment variable.")
        | some _ =>
          match env.download url with
          | .error e => .error (.exc e)
          | .ok audio_bytes =>
            match env.upload audio_bytes with
            | .error e => .error (.exc e)
            | .ok upload_url =>
              match env.transcribe upload_url with
              | .error e => .error (.exc e)
              | .ok utts => .ok (create_speaker_segments utts audio_bytes)
      else .error (.http 400 "Invalid YouTube URL.")

/-- src/main.py lines 146-191: the whole endpoint.  The `try:` wraps the
entire body, including the `abort(400, ...)` calls, and
`except Exception` catches the `HTTPException` those aborts raise (it
subclasses `Exception`), so every exception — the 400 aborts included —
is answered by line 191's `abort(500, ...)`.  Result: HTTP status plus
the zip contents on success. -/
def process_video_endpoint (env : Env) (reqJson : Option (List (String × String))) :
    Nat × Option (List (String × List Int)) :=
  match process_video_body env reqJson with
  | .ok files => (200, some files)
  | .error _ => (500, none)

/-! The Chunker.  src/app.py line 4 imports `process_video` from a main.py
variant that is not under src/ (the src/main.py above has no such
function); that variant owns the duration-bounded chunking whose
part-numbered filenames app.py parses. -/

/-- Modelled from the spec: `SegmentPart` of §3 — speaker label, 1-based
part index, and the part's audio window (field `clip` here). -/
structure SegmentPart where
  speaker : String
  part_index : Nat
  clip : List Int

/-- Modelled from the spec: the default `max_duration_ms` of §4.2
(5 minutes). -/
def MAX_DURATION_MS : Nat := 300000

/-- Modelled from the spec: the number of windows `chunk` produces — the
ceiling of `dur / maxDur`, so a zero-duration track yields none. -/
def numParts (dur maxDur : Nat) : Nat := (dur + maxDur - 1) / maxDur

/-- Modelled from the spec: §4.2's `chunk(speaker, audio, max_duration_ms)`,
missing from src/ (it lives in the `process_video` main.py variant that
src/app.py imports).  Window `i` (0-based, surfaced as 1-based
`part_index`) covers `[i*maxDur, min((i+1)*maxDur, duration))`. -/
def chunk (spk : String) (track : List Int) (maxDur : Nat) : List SegmentPart :=
  (List.range (numParts track.length maxDur)).map
    (fun i => ⟨spk, i + 1, (track.drop (i * maxDur)).take maxDur⟩)

/-! Display names (src/app.py lines 40-54). -/

/-- Python `str.split(sep)` for a one-character separator, on the
character list of the string: never returns an empty list, keeps empty
components. -/
def splitUnders : List Char → List (List Char)
  | [] => [[]]
  | c :: rest =>
    if c == '_' then [] :: splitUnders rest
    else
      match splitUnders rest with
      | [] => [[c]]
      | comp :: comps => (c :: comp) :: comps

/-- src/app.py lines 46-48: component `i` of `filename.split(sep_)` —
`split_name[1]` is read as the speaker name and `split_name[3]` as the
part number. -/
def splitComp (name : String) (i : Nat) : String :=
  ⟨(splitUnders name.data).getD i []⟩

/-- src/app.py lines 50-52: the display name of one exported file —
`"Speaker {split_name[1]}"`, plus `" Part {split_name[3]}"` exactly when
`len(speakers_audio) > 1` (`total` here), i.e. when the batch holds more
than one file overall. -/
def displayName (total : Nat) (filename : String) : String :=
  let base := "Speaker " ++ splitComp filename 1
  if 1 < total then base ++ (" Part " ++ splitComp filename 3) else base

/-- src/app.py lines 40-54: the display names of the whole
`speakers_audio` batch, in order. -/
def audio_files_names (speakers_audio : List (String × List Int)) : List String :=
  speakers_audio.map (fun t => displayName speakers_audio.length t.1)

example : pyslice [1, 2, 3, 4] 1 3 = [2, 3] := by decide
example : speaker_segments [⟨"A", 0, 1⟩, ⟨"A", 1, 2⟩] [5, 7]
    = [("A", [5] ++ (pause ++ [7]))] := by decide
example : create_speaker_segments [⟨"A", 0, 1⟩] [5]
    = [("speaker_A.mp3", [5]), ("speaker_A_segment_1.mp3", [5])] := by decide
example : speakersOf [⟨"A", 0, 1⟩, ⟨"B", 1, 2⟩, ⟨"A", 2, 3⟩] = ["A", "B"] := by decide
example : youtubeNetloc "www.youtube.com" = true := by decide
example : youtubeNetloc "youtu.be" = false := by decide
example : (get_transcript_poll [⟨"processing", [], ""⟩, ⟨"completed", [], ""⟩]).1 = 5 := by decide
example : splitComp "speaker_A_part_1.mp3" 1 = "A" := by decide
example : splitComp "speaker_A_part_1.mp3" 3 = "1.mp3" := by decide
example : displayName 2 "speaker_A_part_1.mp3" = "Speaker A Part 1.mp3" := by decide
example : numParts 700000 300000 = 3 := by decide
example : (chunk "A" [5, 7, 9] 2).map SegmentPart.clip = [[5, 7], [9]] := by decide

/-! Shared lemmas about the dictionary updates and the loop. -/

theorem lookup_updSegs_self (d : SegDict) (spk : String) (seg : List Int) :
    (updSegs d spk seg).lookup spk =
      some ((d.lookup spk).elim seg (fun v => v ++ (pause ++ seg))) := by
  induction d with
  | nil => simp [updSegs]
  | cons p rest ih =>
    obtain ⟨k, v⟩ := p
    by_cases h : k = spk
    · simp [updSegs, List.lookup, h]
    · have hb : (spk == k) = false := beq_eq_false_iff_ne.mpr (Ne.symm h)
      simp [updSegs, List.lookup, h, hb, ih]

theorem lookup_updSegs_ne (d : SegDict) (spk s : String) (seg : List Int)
    (h : s ≠ spk) : (updSegs d spk seg).lookup s = d.lookup s := by
  have hb : (s == spk) = false := beq_eq_false_iff_ne.mpr h
  induction d with
  | nil => simp [updSegs, List.lookup, hb]
  | cons p rest ih =>
    obtain ⟨k, v⟩ := p
    by_cases hk : k = spk
    · subst hk
      simp [updSegs, List.lookup, hb]
    · have hbk : (k == spk) = false := beq_eq_false_iff_ne.mpr hk
      simp [updSegs, List.lookup, hbk, ih]

theorem lookup_updSegs_found (d : SegDict) (spk : String) (seg b : List Int)
    (h : d.lookup spk = some b) :
    (updSegs d spk seg).lookup spk = some (b ++ (pause ++ seg)) := by
  rw [lookup_updSegs_self, h]
  simp [Option.elim]

theorem updSegs_of_not_mem (d : SegDict) (spk : String) (seg : List Int)
    (h : ∀ p ∈ d, p.1 ≠ spk) : updSegs d spk seg = d ++ [(spk, seg)] := by
  induction d with
  | nil => simp [updSegs]
  | cons p rest ih =>
    obtain ⟨k, v⟩ := p
    have hk : k ≠ spk := h (k, v) (by simp)
    simp [updSegs, hk]
    exact ih (fun q hq => h q (by simp [hq]))

theorem updInd_of_not_mem (d : IndDict) (spk : String) (seg : List Int)
    (h : ∀ p ∈ d, p.1 ≠ spk) : updInd d spk seg = d ++ [(spk, [seg])] := by
  induction d with
  | nil => simp [updInd]
  | cons p rest ih =>
    obtain ⟨k, v⟩ := p
    have hk : k ≠ spk := h (k, v) (by simp)
    simp [updInd, hk]
    exact ih (fun q hq => h q (by simp [hq]))

theorem updSegs_map (xs : List String) (g : String → List Int) (spk : String)
    (seg : List Int) (hmem : spk ∈ xs) (hnd : xs.Nodup) :
    updSegs (xs.map (fun s => (s, g s))) spk seg
      = xs.map (fun s => (s, if s = spk then g s ++ (pause ++ seg) else g s)) := by
  induction xs with
  | nil => simp at hmem
  | cons x t ih =>
    by_cases hx : x = spk
    · subst hx
      have hnot : x ∉ t := (List.nodup_cons.mp hnd).1
      simp only [List.map_cons, updSegs, beq_self_eq_true, if_true, if_pos rfl]
      exact congrArg (List.cons _) (List.map_congr_left (fun s hs => by
        have hsx : s ≠ x := fun e => hnot (e ▸ hs)
        simp [hsx]))
    · have hmem2 : spk ∈ t := by
        rcases List.mem_cons.mp hmem with h | h
        · exact absurd h.symm hx
        · exact h
      have hb : (x == spk) = false := beq_eq_false_iff_ne.mpr hx
      simp [updSegs, hb, hx, ih hmem2 (List.nodup_cons.mp hnd).2]

theorem updInd_map (xs : List String) (g : String → List (List Int)) (spk : String)
    (seg : List Int) (hmem : spk ∈ xs) (hnd : xs.Nodup) :
    updInd (xs.map (fun s => (s, g s))) spk seg
      = xs.map (fun s => (s, if s = spk then g s ++ [seg] else g s)) := by
  induction xs with
  | nil => simp at hmem
  | cons x t ih =>
    by_cases hx : x = spk
    · subst hx
      have hnot : x ∉ t := (List.nodup_cons.mp hnd).1
      simp only [List.map_cons, updInd, beq_self_eq_true, if_true, if_pos rfl]
      exact congrArg (List.cons _) (List.map_congr_left (fun s hs => by
        have hsx : s ≠ x := fun e => hnot (e ▸ hs)
        simp [hsx]))
    · have hmem2 : spk ∈ t := by
        rcases List.mem_cons.mp hmem with h | h
        · exact absurd h.symm hx
        · exact h
      have hb : (x == spk) = false := beq_eq_false_iff_ne.mpr hx
      simp [updInd, hb, hx, ih hmem2 (List.nodup_cons.mp hnd).2]

theorem joinPause_concat (bs : List (List Int)) (b : List Int) (h : bs ≠ []) :
    joinPause (bs ++ [b]) = joinPause bs ++ (pause ++ b) := by
  induction bs with
  | nil => simp at h
  | cons x t ih =>
    cases t with
    | nil => simp [joinPause]
    | cons y u =>
      have step := ih (by simp)
      simp only [List.cons_append] at step ⊢
      simp [joinPause, step]

theorem joinPause_length (bs : List (List Int)) (h : bs ≠ []) :
    (joinPause bs).length
      = (bs.map List.length).sum + PAUSE_DURATION_MS * (bs.length - 1) := by
  induction bs with
  | nil => simp at h
  | cons x t ih =>
    cases t with
    | nil => simp [joinPause]
    | cons y u =>
      have step := ih (by simp)
      simp only [joinPause, List.length_append, step, List.map_cons, List.sum_cons,
        List.length_cons, pause, List.length_replicate, PAUSE_DURATION_MS]
      omega

theorem speakersOf_concat (l : List Utterance) (u : Utterance) :
    speakersOf (l ++ [u]) =
      if u.speaker ∈ speakersOf l then speakersOf l else speakersOf l ++ [u.speaker] := by
  simp [speakersOf, List.foldl_append]

theorem mem_foldl_speakers (l : List Utterance) (acc : List String) (x : String) :
    x ∈ l.foldl (fun acc u => if u.speaker ∈ acc then acc else acc ++ [u.speaker]) acc
      ↔ x ∈ acc ∨ ∃ u ∈ l, u.speaker = x := by
  induction l generalizing acc with
  | nil => simp
  | cons u t ih =>
    rw [List.foldl_cons, ih]
    by_cases h : u.speaker ∈ acc
    · rw [if_pos h]
      have hx : u.speaker = x → x ∈ acc := fun e => e ▸ h
      simp only [List.exists_mem_cons_iff]
      tauto
    · rw [if_neg h]
      simp only [List.exists_mem_cons_iff, List.mem_append, List.mem_singleton]
      rw [@eq_comm _ x u.speaker]
      tauto

theorem mem_speakersOf (l : List Utterance) (x : String) :
    x ∈ speakersOf l ↔ ∃ u ∈ l, u.speaker = x := by
  rw [speakersOf, mem_foldl_speakers]
  simp

theorem nodup_foldl_speakers (l : List Utterance) (acc : List String) (h : acc.Nodup) :
    (l.foldl (fun acc u => if u.speaker ∈ acc then acc else acc ++ [u.speaker]) acc).Nodup := by
  induction l generalizing acc with
  | nil => exact h
  | cons u t ih =>
    rw [List.foldl_cons]
    by_cases hm : u.speaker ∈ acc
    · rw [if_pos hm]; exact ih acc h
    · rw [if_neg hm]
      exact ih _ (by simp [List.nodup_append, h, hm])

theorem nodup_speakersOf (l : List Utterance) : (speakersOf l).Nodup :=
  nodup_foldl_speakers l [] (by simp)

theorem uttsOf_concat (s : String) (l : List Utterance) (u : Utterance) :
    uttsOf s (l ++ [u]) = uttsOf s l ++ if u.speaker = s then [u] else [] := by
  rw [uttsOf, List.filter_append]
  by_cases h : u.speaker = s
  · simp [uttsOf, List.filter, h]
  · have hb : (u.speaker == s) = false := beq_eq_false_iff_ne.mpr h
    simp [uttsOf, List.filter, h, hb]

theorem uttsOf_ne_nil_iff (s : String) (l : List Utterance) :
    uttsOf s l ≠ [] ↔ s ∈ speakersOf l := by
  rw [mem_speakersOf, uttsOf, Ne, List.filter_eq_nil_iff]
  push_neg
  simp

theorem lookup_map_self {β : Type} (xs : List String) (g : String → β) (s : String) :
    (xs.map (fun a => (a, g a))).lookup s = if s ∈ xs then some (g s) else none := by
  induction xs with
  | nil => simp
  | cons x t ih =>
    by_cases h : s = x
    · subst h
      simp [List.lookup]
    · have hb : (s == x) = false := beq_eq_false_iff_ne.mpr h
      simp [List.lookup, hb, ih, h]

theorem fold_characterization (audio_bytes : List Int) (l : List Utterance) :
    (l.foldl (segStep audio_bytes) ([], [])).1
        = (speakersOf l).map (fun s => (s, joinPause ((uttsOf s l).map (sliceU audio_bytes))))
    ∧ (l.foldl (segStep audio_bytes) ([], [])).2
        = (speakersOf l).map (fun s => (s, (uttsOf s l).map (sliceU audio_bytes))) := by
  induction l using List.reverseRecOn with
  | nil => constructor <;> simp [speakersOf]
  | append_singleton l u ih =>
    obtain ⟨ih1, ih2⟩ := ih
    rw [List.foldl_append, List.foldl_cons, List.foldl_nil]
    simp only [segStep]
    constructor
    · rw [ih1]
      by_cases hmem : u.speaker ∈ speakersOf l
      · rw [updSegs_map _ _ _ _ hmem (nodup_speakersOf l), speakersOf_concat, if_pos hmem]
        apply List.map_congr_left
        intro s hs
        by_cases hsu : s = u.speaker
        · rw [if_pos hsu, uttsOf_concat, if_pos hsu.symm, List.map_append]
          have hne : (uttsOf s l).map (sliceU audio_bytes) ≠ [] := by
            rw [Ne, List.map_eq_nil_iff]
            exact (uttsOf_ne_nil_iff s l).mpr hs
          rw [List.map_singleton, joinPause_concat _ _ hne]
        · rw [if_neg hsu, uttsOf_concat, if_neg (Ne.symm hsu), List.append_nil]
      · have hkeys : ∀ p ∈ (speakersOf l).map
            (fun s => (s, joinPause ((uttsOf s l).map (sliceU audio_bytes)))),
            p.1 ≠ u.speaker := by
          intro p hp
          obtain ⟨s, hs, rfl⟩ := List.mem_map.mp hp
          exact fun e => hmem (e ▸ hs)
        rw [updSegs_of_not_mem _ _ _ hkeys, speakersOf_concat, if_neg hmem, List.map_append]
        have hnil : uttsOf u.speaker l = [] := by
          by_contra hne
          exact hmem ((uttsOf_ne_nil_iff _ _).mp hne)
        congr 1
        · apply List.map_congr_left
          intro s hs
          have hsu : u.speaker ≠ s := fun e => hmem (e ▸ hs)
          rw [uttsOf_concat, if_neg hsu, List.append_nil]
        · rw [List.map_singleton, uttsOf_concat, if_pos rfl, hnil]
          simp [joinPause]
    · rw [ih2]
      by_cases hmem : u.speaker ∈ speakersOf l
      · rw [updInd_map _ _ _ _ hmem (nodup_speakersOf l), speakersOf_concat, if_pos hmem]
        apply List.map_congr_left
        intro s hs
        by_cases hsu : s = u.speaker
        · rw [if_pos hsu, uttsOf_concat, if_pos hsu.symm, List.map_append,
            List.map_singleton]
        · rw [if_neg hsu, uttsOf_concat, if_neg (Ne.symm hsu), List.append_nil]
      · have hkeys : ∀ p ∈ (speakersOf l).map
            (fun s => (s, (uttsOf s l).map (sliceU audio_bytes))),
            p.1 ≠ u.speaker := by
          intro p hp
          obtain ⟨s, hs, rfl⟩ := List.mem_map.mp hp
          exact fun e => hmem (e ▸ hs)
        rw [updInd_of_not_mem _ _ _ hkeys, speakersOf_concat, if_neg hmem, List.map_append]
        have hnil : uttsOf u.speaker l = [] := by
          by_contra hne
          exact hmem ((uttsOf_ne_nil_iff _ _).mp hne)
        congr 1
        · apply List.map_congr_left
          intro s hs
          have hsu : u.speaker ≠ s := fun e => hmem (e ▸ hs)
          rw [uttsOf_concat, if_neg hsu, List.append_nil]
        · rw [List.map_singleton, uttsOf_concat, if_pos rfl, hnil]
          simp

theorem speaker_segments_lookup (utts : List Utterance) (audio_bytes : List Int)
    (s : String) :
    (speaker_segments utts audio_bytes).lookup s
      = if s ∈ speakersOf utts
        then some (joinPause ((uttsOf s utts).map (sliceU audio_bytes)))
        else none := by
  rw [speaker_segments, (fold_characterization audio_bytes utts).1, lookup_map_self]

theorem speaker_individual_segments_lookup (utts : List Utterance)
    (audio_bytes : List Int) (s : String) :
    (speaker_individual_segments utts audio_bytes).lookup s
      = if s ∈ speakersOf utts
        then some ((uttsOf s utts).map (sliceU audio_bytes))
        else none := by
  rw [speaker_individual_segments, (fold_characterization audio_bytes utts).2,
    lookup_map_self]

/-! Claim theorems. -/

/-- C1 counterexample: with A=(spk1,0,1000) and B=(spk1,500,1500) over a
1500 ms source, the combined output for spk1 has duration 2500 ms, not the
1500 ms the claim states — `create_speaker_segments` never clamps a
same-speaker start forward. -/
theorem overlap_clamp_cex :
    ((speaker_segments [⟨"A", 0, 1000⟩, ⟨"A", 500, 1500⟩]
        (List.replicate 1500 (0 : Int))).lookup "A").map List.length = some 2500
  ∧ (2500 : Nat) ≠ 1500 := by
  constructor
  · rw [speaker_segments_lookup, if_pos (by decide)]
    refine congrArg some ?_
    have hu : (uttsOf "A" [⟨"A", 0, 1000⟩, ⟨"A", 500, 1500⟩]).map
        (sliceU (List.replicate 1500 (0 : Int)))
        = [pyslice (List.replicate 1500 (0 : Int)) 0 1000,
           pyslice (List.replicate 1500 (0 : Int)) 500 1500] := rfl
    have hj : joinPause [pyslice (List.replicate 1500 (0 : Int)) 0 1000,
          pyslice (List.replicate 1500 (0 : Int)) 500 1500]
        = pyslice (List.replicate 1500 (0 : Int)) 0 1000
          ++ (pause ++ pyslice (List.replicate 1500 (0 : Int)) 500 1500) := rfl
    rw [hu, hj]
    simp only [pyslice, pause, PAUSE_DURATION_MS, List.length_append, List.length_take,
      List.length_drop, List.length_replicate]
    omega
  · decide

/-- C1 (amended): the loop does not clamp overlapping same-speaker starts:
given A=(spk1,0,1000) and B=(spk1,500,1500) over a source of at least
1500 ms, spk1's combined output is slice(0,1000) ++ 500 ms pause ++
slice(500,1500), of duration 2500 ms — the overlapped 500 ms is consumed
twice and a pause is added. -/
theorem overlap_not_clamped (audio_bytes : List Int) (h : 1500 ≤ audio_bytes.length) :
    (speaker_segments [⟨"A", 0, 1000⟩, ⟨"A", 500, 1500⟩] audio_bytes).lookup "A"
      = some (pyslice audio_bytes 0 1000 ++ (pause ++ pyslice audio_bytes 500 1500))
  ∧ (pyslice audio_bytes 0 1000 ++ (pause ++ pyslice audio_bytes 500 1500)).length
      = 2500 := by
  refine ⟨rfl, ?_⟩
  simp only [pyslice, pause, PAUSE_DURATION_MS, List.length_append, List.length_take,
    List.length_drop, List.length_replicate]
  omega

/-- C1 witness: the amended statement at a concrete 1500 ms source. -/
theorem overlap_not_clamped_witness :
    (speaker_segments [⟨"A", 0, 1000⟩, ⟨"A", 500, 1500⟩]
        (List.replicate 1500 (0 : Int))).lookup "A"
      = some (pyslice (List.replicate 1500 (0 : Int)) 0 1000
          ++ (pause ++ pyslice (List.replicate 1500 (0 : Int)) 500 1500))
  ∧ (pyslice (List.replicate 1500 (0 : Int)) 0 1000
      ++ (pause ++ pyslice (List.replicate 1500 (0 : Int)) 500 1500)).length = 2500 :=
  overlap_not_clamped (List.replicate 1500 (0 : Int)) (by simp)

/-- C2 counterexample: with A=(spk1,0,1000) and B=(spk1,500,1500) over a
1500 ms source, spk1's combined output lasts 2500 ms while the sum of its
utterance durations is 2000 ms — the claimed invariant
`duration <= sum of durations` fails on the code. -/
theorem no_growth_cex :
    ((speaker_segments [⟨"A", 0, 1000⟩, ⟨"A", 500, 1500⟩]
        (List.replicate 1500 (0 : Int))).lookup "A").map List.length = some 2500
  ∧ ((uttsOf "A" [⟨"A", 0, 1000⟩, ⟨"A", 500, 1500⟩]).map
        (fun u => u.stop - u.start)).sum = 2000
  ∧ ¬ (2500 : Nat) ≤ 2000 := by
  refine ⟨?_, by decide, by decide⟩
  rw [speaker_segments_lookup, if_pos (by decide)]
  refine congrArg some ?_
  have hu : (uttsOf "A" [⟨"A", 0, 1000⟩, ⟨"A", 500, 1500⟩]).map
      (sliceU (List.replicate 1500 (0 : Int)))
      = [pyslice (List.replicate 1500 (0 : Int)) 0 1000,
         pyslice (List.replicate 1500 (0 : Int)) 500 1500] := rfl
  have hj : joinPause [pyslice (List.replicate 1500 (0 : Int)) 0 1000,
        pyslice (List.replicate 1500 (0 : Int)) 500 1500]
      = pyslice (List.replicate 1500 (0 : Int)) 0 1000
        ++ (pause ++ pyslice (List.replicate 1500 (0 : Int)) 500 1500) := rfl
  rw [hu, hj]
  simp only [pyslice, pause, PAUSE_DURATION_MS, List.length_append, List.length_take,
    List.length_drop, List.length_replicate]
  omega

/-- C2 (amended): per-speaker output duration is bounded by the sum of that
speaker's utterance durations plus the 500 ms inter-utterance pauses —
`duration <= sum + PAUSE_DURATION_MS * (k - 1)` for a speaker with `k`
utterances; without the pause term the bound fails (see the
counterexample). -/
theorem duration_bounded_with_pauses (l : List Utterance) (audio_bytes : List Int)
    (s : String) (buf : List Int)
    (h : (speaker_segments l audio_bytes).lookup s = some buf) :
    buf.length ≤ ((uttsOf s l).map (fun u => u.stop - u.start)).sum
      + PAUSE_DURATION_MS * ((uttsOf s l).length - 1) := by
  rw [speaker_segments_lookup] at h
  by_cases hmem : s ∈ speakersOf l
  · rw [if_pos hmem] at h
    obtain rfl := (Option.some.inj h).symm
    have hne : (uttsOf s l).map (sliceU audio_bytes) ≠ [] := by
      rw [Ne, List.map_eq_nil_iff]
      exact (uttsOf_ne_nil_iff s l).mpr hmem
    rw [joinPause_length _ hne, List.length_map, List.map_map]
    refine Nat.add_le_add_right ?_ _
    refine List.sum_le_sum ?_
    intro u hu
    simp only [Function.comp, sliceU, pyslice]
    exact List.length_take_le (u.stop - u.start) (audio_bytes.drop u.start)
  · rw [if_neg hmem] at h
    exact absurd h (by simp)

/-- C2 witness: the amended bound at a one-utterance input. -/
theorem duration_bounded_with_pauses_witness :
    ([1, 2] : List Int).length
      ≤ ((uttsOf "A" [⟨"A", 0, 2⟩]).map (fun u => u.stop - u.start)).sum
        + PAUSE_DURATION_MS * ((uttsOf "A" [⟨"A", 0, 2⟩]).length - 1) :=
  duration_bounded_with_pauses [⟨"A", 0, 2⟩] [1, 2, 3] "A" [1, 2] rfl

/-- C3 counterexample: swapping two same-speaker utterances changes the
assembled per-speaker audio — `create_speaker_segments` never sorts, so the
result is not input-order-invariant. -/
theorem permutation_changes_output_cex :
    (speaker_segments [⟨"A", 0, 1⟩, ⟨"A", 2, 3⟩] [10, 20, 30]).lookup "A"
      ≠ (speaker_segments [⟨"A", 2, 3⟩, ⟨"A", 0, 1⟩] [10, 20, 30]).lookup "A" := by
  decide

/-- C3 (amended): the loop consumes utterances in the order given (no sort),
so only permutations that preserve each speaker's relative utterance order
leave the per-speaker output audio unchanged; a permutation that swaps two
utterances of one speaker changes it (see the counterexample). -/
theorem per_speaker_order_determines_output (l1 l2 : List Utterance)
    (audio_bytes : List Int) (h : ∀ s, uttsOf s l1 = uttsOf s l2) (s : String) :
    (speaker_segments l1 audio_bytes).lookup s
        = (speaker_segments l2 audio_bytes).lookup s
  ∧ (speaker_individual_segments l1 audio_bytes).lookup s
        = (speaker_individual_segments l2 audio_bytes).lookup s := by
  have hmem : s ∈ speakersOf l1 ↔ s ∈ speakersOf l2 := by
    rw [← uttsOf_ne_nil_iff, ← uttsOf_ne_nil_iff, h s]
  constructor
  · rw [speaker_segments_lookup, speaker_segments_lookup, h s]
    by_cases hm : s ∈ speakersOf l2
    · rw [if_pos (hmem.mpr hm), if_pos hm]
    · rw [if_neg (fun c => hm (hmem.mp c)), if_neg hm]
  · rw [speaker_individual_segments_lookup, speaker_individual_segments_lookup, h s]
    by_cases hm : s ∈ speakersOf l2
    · rw [if_pos (hmem.mpr hm), if_pos hm]
    · rw [if_neg (fun c => hm (hmem.mp c)), if_neg hm]

/-- C3 witness: a two-speaker swap that preserves each speaker's relative
order leaves the per-speaker outputs unchanged. -/
theorem per_speaker_order_witness :
    (speaker_segments [⟨"A", 0, 1⟩, ⟨"B", 1, 2⟩] [10, 20]).lookup "A"
        = (speaker_segments [⟨"B", 1, 2⟩, ⟨"A", 0, 1⟩] [10, 20]).lookup "A"
  ∧ (speaker_individual_segments [⟨"A", 0, 1⟩, ⟨"B", 1, 2⟩] [10, 20]).lookup "A"
        = (speaker_individual_segments [⟨"B", 1, 2⟩, ⟨"A", 0, 1⟩] [10, 20]).lookup "A" :=
  per_speaker_order_determines_output _ _ [10, 20] (fun s => by
    by_cases hA : ("A" : String) = s
    · have hB : ("B" : String) ≠ s := fun e => absurd (hA.trans e.symm) (by decide)
      have bA : (("A" : String) == s) = true := beq_iff_eq.mpr hA
      have bB : (("B" : String) == s) = false := beq_eq_false_iff_ne.mpr hB
      simp [uttsOf, List.filter, bA, bB]
    · have bA : (("A" : String) == s) = false := beq_eq_false_iff_ne.mpr hA
      by_cases hB : ("B" : String) = s
      · have bB : (("B" : String) == s) = true := beq_iff_eq.mpr hB
        simp [uttsOf, List.filter, bA, bB]
      · have bB : (("B" : String) == s) = false := beq_eq_false_iff_ne.mpr hB
        simp [uttsOf, List.filter, bA, bB]) "A"

/-- C4 counterexample: two contiguous utterances of one speaker are joined
with a 500 ms silence pause in between, not concatenated directly. -/
theorem pause_inserted_cex :
    (speaker_segments [⟨"A", 0, 1⟩, ⟨"A", 1, 2⟩] [5, 7]).lookup "A"
      = some ([5] ++ (pause ++ [7]))
  ∧ (speaker_segments [⟨"A", 0, 1⟩, ⟨"A", 1, 2⟩] [5, 7]).lookup "A" ≠ some [5, 7] :=
  ⟨rfl, by decide⟩

/-- C4 (amended): when a speaker's track already holds audio `b`, processing
a further utterance `u` of that speaker appends `pause ++ slice(u)` — a
500 ms silence is inserted before every subsequent same-speaker slice. -/
theorem pause_appended_on_same_speaker (audio_bytes : List Int)
    (st : SegDict × IndDict) (u : Utterance) (b : List Int)
    (h : st.1.lookup u.speaker = some b) :
    ((segStep audio_bytes st u).1).lookup u.speaker
      = some (b ++ (pause ++ sliceU audio_bytes u)) :=
  lookup_updSegs_found st.1 u.speaker (sliceU audio_bytes u) b h

/-- C4 witness: the amended statement at a concrete one-entry track. -/
theorem pause_appended_on_same_speaker_witness :
    ((segStep [7] ([("A", [9])], []) ⟨"A", 0, 1⟩).1).lookup "A"
      = some ([9] ++ (pause ++ sliceU [7] ⟨"A", 0, 1⟩)) :=
  pause_appended_on_same_speaker [7] ([("A", [9])], []) ⟨"A", 0, 1⟩ [9] rfl

/-- A collaborator environment whose URL parse yields a non-YouTube host;
the later collaborators are never reached. -/
def envBadHost : Env :=
  ⟨fun _ => "evil.com", some "key", fun _ => .error "unreached",
   fun _ => .error "unreached", fun _ => .error "unreached"⟩

/-- A collaborator environment that passes validation and then fails at the
download step. -/
def envDownFail : Env :=
  ⟨fun _ => "www.youtube.com", some "key", fun _ => .error "HTTP Error 410: Gone",
   fun _ => .error "unreached", fun _ => .error "unreached"⟩

/-- A collaborator environment whose completed transcript holds zero
utterances. -/
def envEmptyTranscript : Env :=
  ⟨fun _ => "www.youtube.com", some "key", fun _ => .ok [0],
   fun _ => .ok "upload-url", fun _ => .ok []⟩

/-- C5 counterexample: a valid request whose completed transcript has zero
utterances is answered HTTP 200 with an empty file list — an empty
transcript is an empty success, no failure is reported. -/
theorem empty_transcript_success_cex :
    process_video_endpoint envEmptyTranscript
      (some [("youtube_url", "https://www.youtube.com/watch?v=abc")])
      = (200, some []) := rfl

/-- C5 (amended): zero utterances are not treated as a failure:
`create_speaker_segments` returns no files and the endpoint answers a
validated request whose transcription completed with zero utterances with
HTTP 200 and an empty archive. -/
theorem empty_transcript_empty_success (env : Env)
    (j : List (String × String)) (url key upload_url : String)
    (audio_bytes : List Int)
    (h1 : j.lookup "youtube_url" = some url)
    (h2 : youtubeNetloc (env.netlocOf url) = true)
    (h3 : env.apiKey = some key)
    (h4 : env.download url = .ok audio_bytes)
    (h5 : env.upload audio_bytes = .ok upload_url)
    (h6 : env.transcribe upload_url = .ok []) :
    create_speaker_segments [] audio_bytes = []
  ∧ process_video_endpoint env (some j) = (200, some []) := by
  have hfiles : create_speaker_segments [] audio_bytes = [] := rfl
  have hbody : process_video_body env (some j) = .ok [] := by
    simp only [process_video_body, h1, h2, h3, h4, h5, h6, if_true, hfiles]
  exact ⟨hfiles, by simp only [process_video_endpoint, hbody]⟩

/-- C5 witness: the amended statement at the concrete empty-transcript
environment. -/
theorem empty_transcript_empty_success_witness :
    create_speaker_segments [] [0] = []
  ∧ process_video_endpoint envEmptyTranscript
      (some [("youtube_url", "https://www.youtube.com/watch?v=abc")])
      = (200, some []) :=
  empty_transcript_empty_success envEmptyTranscript
    [("youtube_url", "https://www.youtube.com/watch?v=abc")]
    "https://www.youtube.com/watch?v=abc" "key" "upload-url" [0]
    rfl rfl rfl rfl rfl rfl

/-- C6 (code bug): in src/main.py the `abort(400, ...)` calls sit inside
the `try:` block whose `except Exception` handler catches the
`HTTPException` they raise and re-aborts with 500, so every malformed
request — missing JSON body, missing `youtube_url`, or a non-YouTube
host — is answered 500, not the claimed 400; pipeline failures after
validation are answered 500 as the claim says. -/
theorem malformed_input_gets_500 (env : Env) :
    process_video_endpoint env none = (500, none)
  ∧ process_video_endpoint env (some []) = (500, none)
  ∧ process_video_endpoint envBadHost
      (some [("youtube_url", "https://evil.com/watch")]) = (500, none)
  ∧ process_video_endpoint envDownFail
      (some [("youtube_url", "https://www.youtube.com/watch?v=x")]) = (500, none) :=
  ⟨rfl, rfl, rfl, rfl⟩

/-- C7 counterexample: on a non-pending status that is neither `completed`
nor `error` (here `cancelled`) the loop sleeps 5 s and queries again
instead of failing: alone it leaves the loop still polling, and followed
by a `completed` response the loop returns that success. -/
theorem poll_continues_after_nonpending_cex :
    get_transcript_poll [⟨"cancelled", [], ""⟩] = (POLL_INTERVAL_SECONDS, none)
  ∧ get_transcript_poll [⟨"cancelled", [], ""⟩, ⟨"completed", [], ""⟩]
      = (POLL_INTERVAL_SECONDS, some (.ok ⟨"completed", [], ""⟩)) :=
  ⟨rfl, rfl⟩

/-- C7 (amended): the poll loop sleeps a fixed 5 s after every response
whose status is neither `completed` nor `error`, and it is still polling
after the observed responses iff every one of them had such a status —
`completed` (success) and `error` (failure) are the only stopping
statuses; any other status, pending or not, keeps the loop polling. -/
theorem poll_stops_only_on_completed_or_error (rs : List TranscriptData) :
    ((get_transcript_poll rs).2 = none
        ↔ ∀ r ∈ rs, r.status ≠ "completed" ∧ r.status ≠ "error")
  ∧ (get_transcript_poll rs).1
      = POLL_INTERVAL_SECONDS
        * (rs.takeWhile
            (fun r => !(r.status == "completed") && !(r.status == "error"))).length := by
  induction rs with
  | nil => simp [get_transcript_poll]
  | cons r rest ih =>
    by_cases hc : r.status = "completed"
    · have bc : (r.status == "completed") = true := beq_iff_eq.mpr hc
      simp [get_transcript_poll, hc, bc, List.takeWhile_cons]
    · by_cases he : r.status = "error"
      · have be : (r.status == "error") = true := beq_iff_eq.mpr he
        have bc : (r.status == "completed") = false := beq_eq_false_iff_ne.mpr hc
        simp [get_transcript_poll, hc, he, bc, be, List.takeWhile_cons]
      · have bc : (r.status == "completed") = false := beq_eq_false_iff_ne.mpr hc
        have be : (r.status == "error") = false := beq_eq_false_iff_ne.mpr he
        obtain ⟨ih1, ih2⟩ := ih
        simp only [get_transcript_poll, if_neg hc, if_neg he, List.takeWhile_cons, bc, be,
          Bool.not_false, Bool.and_self, if_true, List.length_cons, List.mem_cons]
        constructor
        · rw [ih1]
          constructor
          · rintro hall r' (rfl | hr')
            · exact ⟨hc, he⟩
            · exact hall r' hr'
          · intro hall r' hr'
            exact hall r' (Or.inr hr')
        · rw [ih2, POLL_INTERVAL_SECONDS]
          omega

/-- C7 witness: a single pending response leaves the loop polling. -/
theorem poll_stops_only_witness :
    (get_transcript_poll [⟨"processing", [], ""⟩]).2 = none :=
  (poll_stops_only_on_completed_or_error [⟨"processing", [], ""⟩]).1.mpr (by decide)

theorem numParts_zero (m : Nat) : numParts 0 m = 0 := by
  cases m with
  | zero => rfl
  | succ k =>
    rw [numParts]
    exact Nat.div_eq_of_lt (by omega)

theorem numParts_pos_step (len m : Nat) (hm : 0 < m) (hlen : 0 < len) :
    numParts len m = numParts (len - m) m + 1 := by
  rw [numParts, numParts]
  by_cases h : len ≤ m
  · have h1 : len - m = 0 := Nat.sub_eq_zero_of_le h
    rw [h1]
    have h2 : (0 + m - 1) / m = 0 := Nat.div_eq_of_lt (by omega)
    rw [h2]
    have h3 : len + m - 1 = (len - 1) + m := by omega
    rw [h3, Nat.add_div_right _ hm]
    have h4 : (len - 1) / m = 0 := Nat.div_eq_of_lt (by omega)
    omega
  · have h3 : len + m - 1 = ((len - m) + m - 1) + m := by omega
    rw [h3, Nat.add_div_right _ hm]

theorem chunk_windows_join (m : Nat) (hm : 0 < m) :
    ∀ (n : Nat) (a : List Int), a.length = n →
      ((List.range (numParts a.length m)).map
        (fun i => (a.drop (i * m)).take m)).flatten = a := by
  intro n
  induction n using Nat.strong_induction_on with
  | _ n ih =>
    intro a ha
    by_cases hnil : a = []
    · subst hnil
      simp [numParts_zero]
    · have hpos : 0 < a.length := List.length_pos.mpr hnil
      have hlt : a.length - m < n := by omega
      have hdrop : (a.drop m).length = a.length - m := by rw [List.length_drop]
      have hrec := ih (a.length - m) hlt (a.drop m) hdrop
      rw [numParts_pos_step a.length m hm hpos, List.range_succ_eq_map, List.map_cons,
        List.flatten_cons, List.map_map]
      have h0 : (a.drop (0 * m)).take m = a.take m := by simp
      have hmap : (List.range (numParts (a.length - m) m)).map
          ((fun i => (a.drop (i * m)).take m) ∘ Nat.succ)
          = (List.range (numParts ((a.drop m).length) m)).map
            (fun i => ((a.drop m).drop (i * m)).take m) := by
        rw [hdrop]
        refine List.map_congr_left ?_
        intro i hi
        simp only [Function.comp]
        rw [List.drop_drop]
        congr 2
        rw [Nat.succ_mul, Nat.mul_comm i m]
        omega
      rw [h0, hmap, hrec, List.take_append_drop]

theorem numParts_mul_lt (len m k : Nat) (hm : 0 < m)
    (h : k + 1 < numParts len m) : (k + 1) * m < len := by
  have h2 : k + 2 ≤ (len + m - 1) / m := h
  have h3 : (k + 2) * m ≤ len + m - 1 := (Nat.le_div_iff_mul_le hm).mp h2
  have e1 : (k + 2) * m = (k + 1) * m + m := by ring
  have e2 : m ≤ (k + 1) * m := Nat.le_mul_of_pos_left m (by omega)
  omega

/-- C8: the spec-modelled Chunker splits a track into consecutive,
non-overlapping, order-preserving windows (their concatenation restores
the track), each at most `maxDur` long, every window but possibly the last
exactly `maxDur` long, indexed 1.. in order; a zero-duration track yields
no parts, and a 700000 ms track with `maxDur = 300000` yields exactly the
durations 300000, 300000, 100000 with indices 1, 2, 3. -/
theorem chunk_bounded_windows (spk : String) (track : List Int) (m : Nat)
    (hm : 0 < m) :
    ((chunk spk track m).map SegmentPart.clip).flatten = track
  ∧ (∀ p ∈ chunk spk track m, p.clip.length ≤ m)
  ∧ (∀ i, i + 1 < numParts track.length m →
      ((chunk spk track m).map (fun p => p.clip.length))[i]? = some m)
  ∧ (chunk spk track m).map SegmentPart.part_index
      = (List.range (numParts track.length m)).map (fun i => i + 1)
  ∧ (track.length = 0 → chunk spk track m = [])
  ∧ (track.length = 700000 → m = 300000 →
      (chunk spk track m).map (fun p => p.clip.length) = [300000, 300000, 100000]
      ∧ (chunk spk track m).map SegmentPart.part_index = [1, 2, 3]) := by
  refine ⟨?_, ?_, ?_, ?_, ?_, ?_⟩
  · rw [chunk, List.map_map]
    exact chunk_windows_join m hm track.length track rfl
  · intro p hp
    rw [chunk] at hp
    obtain ⟨i, hi, rfl⟩ := List.mem_map.mp hp
    exact List.length_take_le m (track.drop (i * m))
  · intro i hi
    rw [chunk, List.map_map, List.getElem?_map, List.getElem?_range (by omega)]
    have hmul : (i + 1) * m < track.length := numParts_mul_lt track.length m i hm hi
    have e1 : (i + 1) * m = i * m + m := by ring
    simp only [Option.map_some', Function.comp, List.length_take, List.length_drop]
    congr 1
    omega
  · rw [chunk, List.map_map]
    rfl
  · intro h0
    rw [chunk, h0, numParts_zero]
    rfl
  · intro h7 h3
    subst h3
    have hn : numParts track.length 300000 = 3 := by rw [h7]; rfl
    rw [chunk, hn]
    have hr : List.range 3 = [0, 1, 2] := rfl
    rw [hr]
    constructor
    · simp only [List.map_cons, List.map_nil, List.length_take, List.length_drop, h7]
      norm_num
    · rfl

/-- C8 witness: the concrete 700000 ms case via the theorem. -/
theorem chunk_bounded_windows_witness :
    (chunk "A" (List.replicate 700000 (0 : Int)) 300000).map (fun p => p.clip.length)
        = [300000, 300000, 100000]
  ∧ (chunk "A" (List.replicate 700000 (0 : Int)) 300000).map SegmentPart.part_index
        = [1, 2, 3] :=
  (chunk_bounded_windows "A" (List.replicate 700000 (0 : Int)) 300000
    (by decide)).2.2.2.2.2 (List.length_replicate 700000 0) rfl

/-- C9 counterexample: a batch of two parts from one single speaker gets
the " Part" qualifier on both display names — src/app.py tests only
`len(speakers_audio) > 1`, the total file count, so the claim's
"more than one speaker exists" condition is not required. -/
theorem display_name_cex :
    audio_files_names [("speaker_A_part_1.mp3", []), ("speaker_A_part_2.mp3", [])]
      = ["Speaker A Part 1.mp3", "Speaker A Part 2.mp3"]
  ∧ audio_files_names [("speaker_A_part_1.mp3", []), ("speaker_A_part_2.mp3", [])]
      ≠ ["Speaker A", "Speaker A"] := ⟨rfl, by decide⟩

/-- C9 (amended): each display name is "Speaker {split[1]}" (second
underscore component of the filename), suffixed with " Part {split[3]}"
exactly when the batch holds more than one exported file in total — not
when that speaker has several parts and several speakers exist; a
single-file batch (hence single speaker, single part) omits the
qualifier. -/
theorem displayName_part_suffix (total : Nat) (name : String) :
    displayName total name
      = (if 1 < total
         then "Speaker " ++ splitComp name 1 ++ (" Part " ++ splitComp name 3)
         else "Speaker " ++ splitComp name 1)
  ∧ ((displayName total name = "Speaker " ++ splitComp name 1) ↔ ¬ 1 < total) := by
  refine ⟨rfl, ?_⟩
  by_cases hlt : 1 < total
  · have hd : displayName total name
        = ("Speaker " ++ splitComp name 1) ++ (" Part " ++ splitComp name 3) := by
      simp only [displayName]
      rw [if_pos hlt]
    rw [hd]
    constructor
    · intro h
      exfalso
      have hlen := congrArg String.length h
      simp only [String.length_append] at hlen
      have h6 : (" Part ").length = 6 := rfl
      omega
    · intro h
      exact absurd hlt h
  · simp [displayName, hlt]

/-- C9 witness: a single-file batch keeps the bare "Speaker A" name. -/
theorem displayName_part_suffix_witness :
    displayName 1 "speaker_A_part_1.mp3" = "Speaker A" :=
  ((displayName_part_suffix 1 "speaker_A_part_1.mp3").2.mpr (by decide)).trans
    (by decide)

/-- C10: the `create_speaker_segments` output is the combined per-speaker
files `speaker_{s}.mp3` in speaker first-occurrence order followed by each
speaker's individual files `speaker_{s}_segment_{i}.mp3`, `i = 1..k` in
utterance order, and each combined file's duration is the sum of its `k`
sliced utterance durations plus `PAUSE_DURATION_MS * (k - 1)`. -/
theorem output_structure (l : List Utterance) (audio_bytes : List Int) :
    create_speaker_segments l audio_bytes
      = (speakersOf l).map (fun s =>
          ("speaker_" ++ s ++ ".mp3", joinPause ((uttsOf s l).map (sliceU audio_bytes))))
        ++ ((speakersOf l).map (fun s =>
            ((uttsOf s l).map (sliceU audio_bytes)).enum.map (fun q =>
              ("speaker_" ++ s ++ "_segment_" ++ toString (q.1 + 1) ++ ".mp3",
               q.2)))).flatten
  ∧ ∀ s buf, (speaker_segments l audio_bytes).lookup s = some buf →
      buf.length = (((uttsOf s l).map (sliceU audio_bytes)).map List.length).sum
        + PAUSE_DURATION_MS * ((uttsOf s l).length - 1) := by
  constructor
  · simp only [create_speaker_segments, (fold_characterization audio_bytes l).1,
      (fold_characterization audio_bytes l).2, List.map_map]
    rfl
  · intro s buf h
    rw [speaker_segments_lookup] at h
    by_cases hmem : s ∈ speakersOf l
    · rw [if_pos hmem] at h
      obtain rfl := (Option.some.inj h).symm
      have hne : (uttsOf s l).map (sliceU audio_bytes) ≠ [] := by
        rw [Ne, List.map_eq_nil_iff]
        exact (uttsOf_ne_nil_iff s l).mpr hmem
      rw [joinPause_length _ hne, List.length_map]
    · rw [if_neg hmem] at h
      exact absurd h (by simp)

/-- C10 witness: the duration equation at a concrete two-utterance
speaker. -/
theorem output_structure_witness :
    (([0, 1] ++ (pause ++ [3, 4]) : List Int)).length
      = (((uttsOf "A" [⟨"A", 0, 2⟩, ⟨"A", 3, 5⟩]).map
          (sliceU [0, 1, 2, 3, 4, 5])).map List.length).sum
        + PAUSE_DURATION_MS * ((uttsOf "A" [⟨"A", 0, 2⟩, ⟨"A", 3, 5⟩]).length - 1) :=
  (output_structure [⟨"A", 0, 2⟩, ⟨"A", 3, 5⟩] [0, 1, 2, 3, 4, 5]).2 "A"
    ([0, 1] ++ (pause ++ [3, 4])) rfl
